import Mathlib

/-!
Shallow embedding of the `undo` repository's history engine.

Source layout:
- `src/src/timeline.rs`: the `Timeline` struct (entries in an
  `ArrayVec<[Entry<C>; 32]>`, cursor `current`, `saved` marker, a `Slot`),
  with `len/is_empty/limit/can_undo/can_redo/is_saved/current`,
  `set_saved`, `clear`, and a `Builder` (fields `saved : bool` and a slot;
  there is no capacity option — the capacity is fixed at 32 by the type).
  `apply/undo/redo/go_to` are declared but their bodies are
  `unimplemented!()`, so their semantics are modelled from the spec.
- `src/src/group.rs`: `UndoGroup` — an id-keyed map of `UndoStack`s with
  an optional active id and a monotone id counter.  The `UndoStack` type
  itself is not part of the sources, so stacks are kept abstract.
- `src/add.rs`: the `Add(char)` action on a `String` target
  (`apply` pushes the character, `undo` pops it back into the action).

Machine integers (`usize`, `u64`) are modelled as `Nat`: the id counter
and the cursor only ever grow by small increments, far from overflow.
Rust `String` targets are modelled as `List Char`.  Panics and Rust
errors are both modelled as `Option`-failure (`none`).
-/

/-- The `Signal` enum delivered to a timeline's slot.  The type lives in the
crate root, which is not among the sources; the variants are taken from their
uses in `timeline.rs`: `Signal::Undo(bool)`, `Signal::Redo(bool)`,
`Signal::Saved(bool)`. -/
inductive Signal : Type where
  | undo : Bool → Signal
  | redo : Bool → Signal
  | saved : Bool → Signal
deriving DecidableEq, Repr

/-- Modelled from the spec: the `Slot` type (crate root, not in the sources)
"wraps an optional caller-supplied callback; emits state-change notifications
only on true edge transitions" and "no callback registered ⇒ no notification".
`emitIf connected cond sig` is `Slot::emit_if(cond, sig)`: the signal reaches
the callback exactly when a callback is connected and `cond` holds.  The
emitted signals are collected in a list instead of invoking a callback. -/
def emitIf (connected : Bool) (cond : Bool) (sig : Signal) : List Signal :=
  if connected && cond then [sig] else []

/-- The `Timeline<C, F>` struct of `timeline.rs`:
`entries: ArrayVec<[Entry<C>; 32]>` (a bounded vector, capacity fixed at 32),
`current: usize`, `saved: Option<usize>`, `slot: Slot<F>`.
`entries` is modelled as a `List C` together with the invariant
`Timeline.inv` bounding its length by the capacity; the `Entry<C>` wrapper
(crate root, not in the sources) carries the command itself, which is all the
claims observe, so an entry is modelled as the bare command.  The slot is
modelled by whether a callback is connected (`connected`). -/
structure Timeline (C : Type) : Type where
  entries : List C
  current : Nat
  saved : Option Nat
  connected : Bool
deriving DecidableEq, Repr

namespace Timeline

/-- `ArrayVec<[Entry<C>; 32]>::capacity()` — fixed at 32 by the type. -/
def capacity : Nat := 32

/-- `Timeline::len`. -/
def len (tl : Timeline C) : Nat := tl.entries.length

/-- `Timeline::is_empty`. -/
def is_empty (tl : Timeline C) : Bool := tl.entries.isEmpty

/-- `Timeline::limit`: `self.entries.capacity()`, always 32. -/
def limit (_tl : Timeline C) : Nat := capacity

/-- `Timeline::can_undo`: `self.current() > 0`. -/
def can_undo (tl : Timeline C) : Bool := decide (0 < tl.current)

/-- `Timeline::can_redo`: `self.current() < self.len()`. -/
def can_redo (tl : Timeline C) : Bool := decide (tl.current < tl.len)

/-- `Timeline::is_saved`: `self.saved.map_or(false, |saved| saved == self.current())`. -/
def is_saved (tl : Timeline C) : Bool :=
  (tl.saved.map (fun s => s == tl.current)).getD false

/-- The representation invariant of a timeline: the cursor never exceeds the
number of entries, and an `ArrayVec` never holds more than its capacity. -/
def inv (tl : Timeline C) : Prop :=
  tl.current ≤ tl.entries.length ∧ tl.entries.length ≤ capacity

instance (tl : Timeline C) : Decidable tl.inv := by unfold inv; infer_instance

/-- `Timeline::set_saved`.  Returns the new timeline together with the
signals delivered to the slot (source lines 96–105). -/
def set_saved (tl : Timeline C) (saved : Bool) : Timeline C × List Signal :=
  let was_saved := tl.is_saved
  if saved then
    ({ tl with saved := some tl.current },
      emitIf tl.connected (!was_saved) (Signal.saved true))
  else
    ({ tl with saved := none },
      emitIf tl.connected was_saved (Signal.saved false))

/-- `Timeline::clear` (source lines 111–119).  The source computes
`could_undo`/`could_redo` first, clears `entries`, then sets
`saved = if self.is_saved() { Some(0) } else { None }` — at that point
`current` still holds its old value and `is_saved` reads only `saved` and
`current`, so the test agrees with the pre-call `is_saved()` — then resets
`current = 0` and emits `Undo(false)`/`Redo(false)` guarded by the old
availability. -/
def clear (tl : Timeline C) : Timeline C × List Signal :=
  let could_undo := tl.can_undo
  let could_redo := tl.can_redo
  ({ entries := [],
     current := 0,
     saved := if tl.is_saved then some 0 else none,
     connected := tl.connected },
    emitIf tl.connected could_undo (Signal.undo false)
      ++ emitIf tl.connected could_redo (Signal.redo false))

end Timeline

/-- The `Builder` of `timeline.rs` (lines 154–193): its only configuration
fields are `saved: bool` and the slot; `connected` models whether
`Builder::connect` was called.  There is no capacity field. -/
structure Builder : Type where
  saved : Bool
  connected : Bool
deriving DecidableEq, Repr

namespace Builder

/-- `Builder::new`: `saved = true`, default (disconnected) slot. -/
def new : Builder := { saved := true, connected := false }

/-- `Builder::saved(mut self, saved: bool)`. -/
def set_saved (b : Builder) (saved : Bool) : Builder := { b with saved := saved }

/-- `Builder::connect`. -/
def connect (b : Builder) : Builder := { b with connected := true }

/-- `Builder::build`: empty entries, `current = 0`,
`saved = if self.saved { Some(0) } else { None }`. -/
def build (b : Builder) (C : Type) : Timeline C :=
  { entries := [],
    current := 0,
    saved := if b.saved then some 0 else none,
    connected := b.connected }

end Builder

/-- `Timeline::new`: `Builder::new().build()`. -/
def Timeline.new (C : Type) : Timeline C := Builder.new.build C

/-- The reversible-operation contract (`Command` in `timeline.rs`, the trait
itself lives in the crate root, not in the sources; `src/add.rs` implements
the same contract as `undo::Action`).  An operation is a value of type `C`
mutated by its own `apply`/`undo` (the `Add` action stores the popped
character back into itself), so both steps return the updated operation
together with the updated target; `none` models a returned `Err`.
`merge prev next` is the optional coalescing hook: `some m` means `next`
was absorbed into `prev`, yielding `m`. -/
structure Interface (C T : Type) : Type where
  run : C → T → Option (C × T)
  unrun : C → T → Option (C × T)
  merge : C → C → Option C

/-- An interface whose operations never coalesce (the `Add` action, and any
action not overriding the default `merge`). -/
def Interface.NoMerge (i : Interface C T) : Prop :=
  ∀ a b, i.merge a b = none

/-- An interface whose `undo` reverses its `apply`: whenever `apply`
succeeds, `undo` of the updated operation on the updated target succeeds and
restores the target bit-for-bit. -/
def Interface.RoundTrip (i : Interface C T) : Prop :=
  ∀ c t c' t', i.run c t = some (c', t') → ∃ c'', i.unrun c' t' = some (c'', t)

namespace Timeline

/-- Modelled from the spec: `Timeline::apply` (its body in `timeline.rs` is
`unimplemented!()`).  Spec §4.1: run `operation.apply(target)`; on failure
return the error with nothing recorded.  On success, if the immediately
preceding entry exists and merging accepts the new operation, it is absorbed
and no new entry is appended; otherwise all entries at index ≥ `current`
(the redo tail) are discarded and the new entry appended; if appending would
exceed the capacity the oldest entry is evicted, `current` and `saved` are
decremented (a `saved` of 0 — the evicted slot — becomes `None`), and
`current` is then advanced by one.  Signal emission for `apply` is not
modelled: no claim observes it. -/
def applyM (i : Interface C T) (tl : Timeline C) (t : T) (c : C) :
    Option (Timeline C × T) :=
  match i.run c t with
  | none => none
  | some (c', t') =>
    let prev : Option C :=
      if tl.current = 0 then none else tl.entries[tl.current - 1]?
    match prev.bind (fun p => i.merge p c') with
    | some m =>
      some ({ tl with entries := tl.entries.set (tl.current - 1) m }, t')
    | none =>
      let kept := tl.entries.take tl.current
      if capacity ≤ kept.length then
        some ({ entries := kept.drop 1 ++ [c'],
                current := (tl.current - 1) + 1,
                saved := match tl.saved with
                  | none => none
                  | some 0 => none
                  | some (k + 1) => some k,
                connected := tl.connected }, t')
      else
        some ({ entries := kept ++ [c'],
                current := tl.current + 1,
                saved := tl.saved,
                connected := tl.connected }, t')

/-- Modelled from the spec: `Timeline::undo` (its body in `timeline.rs` is
`unimplemented!()`).  Spec §4.1: requires `current > 0` (calling it at the
bottom is not a successful undo, modelled as `none`); invokes `undo` on the
entry at `current − 1`; on success decrements `current`, on failure leaves
the state unchanged and propagates the error.  The entry keeps the updated
operation so a later redo re-runs it.  Signal emission is not modelled. -/
def undoM (i : Interface C T) (tl : Timeline C) (t : T) :
    Option (Timeline C × T) :=
  if tl.current = 0 then none
  else
    match tl.entries[tl.current - 1]? with
    | none => none
    | some c =>
      match i.unrun c t with
      | none => none
      | some (c', t') =>
        some ({ tl with
                  entries := tl.entries.set (tl.current - 1) c',
                  current := tl.current - 1 }, t')

/-- A sequence of `apply` calls, stopping at the first failure. -/
def applyN (i : Interface C T) : List C → Timeline C → T → Option (Timeline C × T)
  | [], tl, t => some (tl, t)
  | c :: cs, tl, t =>
    match applyM i tl t c with
    | none => none
    | some (tl1, t1) => applyN i cs tl1 t1

/-- `n` successive `undo` calls, stopping at the first failure. -/
def undoN (i : Interface C T) : Nat → Timeline C → T → Option (Timeline C × T)
  | 0, tl, t => some (tl, t)
  | n + 1, tl, t =>
    match undoN i n tl t with
    | none => none
    | some (tl1, t1) => undoM i tl1 t1

end Timeline

/-- The `Add` action of `src/add.rs`: `apply` pushes the character onto the
`String` target (modelled as `List Char`); `undo` pops the last character
back into the action, failing on an empty target. -/
def AddI : Interface Char (List Char) where
  run := fun c s => some (c, s ++ [c])
  unrun := fun _ s =>
    match s.getLast? with
    | none => none
    | some a => some (a, s.dropLast)
  merge := fun _ _ => none

/-- The operations of the `UndoStack` type referenced by `src/src/group.rs`.
`UndoStack` itself is not among the sources, so stacks are an abstract type
`S` and the delegated operations are parameters; nothing the claims observe
depends on them.  `push` takes the command being recorded. -/
structure StackI (S Cm : Type) : Type where
  pushS : S → Cm → S
  undoS : S → S
  redoS : S → S
  is_cleanS : S → Bool

/-- The `UndoGroup` struct of `src/src/group.rs`: a `FnvHashMap<u64, UndoStack>`
(modelled as an association list with unique keys), the optional active id,
and the `id` counter for the next identifier.  `u64` ids are modelled as
`Nat`. -/
structure UndoGroup (S : Type) : Type where
  group : List (Nat × S)
  active : Option Nat
  id : Nat

namespace UndoGroup

/-- `UndoGroup::new`. -/
def new (S : Type) : UndoGroup S := { group := [], active := none, id := 0 }

/-- `HashMap::insert` on the modelled map (adds always use a fresh key, so
plain consing agrees with map insertion here, and replacing any stale
binding first keeps keys unique). -/
def mapInsert (k : Nat) (v : S) (m : List (Nat × S)) : List (Nat × S) :=
  (k, v) :: m.filter (fun p => p.1 ≠ k)

/-- `HashMap::get` on the modelled map. -/
def mapGet (m : List (Nat × S)) (k : Nat) : Option S := List.lookup k m

/-- `HashMap::remove` on the modelled map: the removed value together with
the map without the key, or `none` when the key is absent. -/
def mapRemove (m : List (Nat × S)) (k : Nat) : Option (S × List (Nat × S)) :=
  match List.lookup k m with
  | none => none
  | some v => some (v, m.filter (fun p => p.1 ≠ k))

/-- `HashMap::get_mut` followed by an in-place update, as in
`group.get_mut(active).unwrap(); stack.push(cmd)`: rewrite the binding of
`k`.  `none` models the `unwrap` panic when the key is absent. -/
def mapUpdate (m : List (Nat × S)) (k : Nat) (f : S → S) :
    Option (List (Nat × S)) :=
  match List.lookup k m with
  | none => none
  | some _ => some (m.map (fun p => if p.1 = k then (p.1, f p.2) else p))

/-- `UndoGroup::add_stack`: hand out the current counter value as the new
id, bump the counter, insert the stack.  Returns the `Uid` as a bare `Nat`. -/
def add_stack (g : UndoGroup S) (stack : S) : UndoGroup S × Nat :=
  ({ group := mapInsert g.id stack g.group,
     active := g.active,
     id := g.id + 1 }, g.id)

/-- `UndoGroup::remove_stack`: `self.group.remove(&id).unwrap()` — `none`
models the panic on an unknown id — then unset `active` if it named the
removed stack. -/
def remove_stack (g : UndoGroup S) (id : Nat) : Option (S × UndoGroup S) :=
  match mapRemove g.group id with
  | none => none
  | some (stack, group') =>
    some (stack,
      { group := group',
        active := if g.active = some id then none else g.active,
        id := g.id })

/-- `UndoGroup::set_active_stack`: stores the id without validating it. -/
def set_active_stack (g : UndoGroup S) (id : Nat) : UndoGroup S :=
  { g with active := some id }

/-- `UndoGroup::clear_active_stack`. -/
def clear_active_stack (g : UndoGroup S) : UndoGroup S :=
  { g with active := none }

/-- `UndoGroup::is_clean`:
`self.active.as_ref().and_then(|i| self.group.get(i).map(|t| t.is_clean()))`. -/
def is_clean (si : StackI S Cm) (g : UndoGroup S) : Option Bool :=
  g.active.bind (fun i => (mapGet g.group i).map si.is_cleanS)

/-- `UndoGroup::is_dirty`: `self.is_clean().map(|t| !t)`. -/
def is_dirty (si : StackI S Cm) (g : UndoGroup S) : Option Bool :=
  (is_clean si g).map (fun t => !t)

/-- `UndoGroup::push`: nothing happens without an active stack; with one,
`self.group.get_mut(active).unwrap()` (panic modelled as `none`) and the
command is pushed. -/
def push (si : StackI S Cm) (g : UndoGroup S) (cmd : Cm) :
    Option (UndoGroup S) :=
  match g.active with
  | none => some g
  | some i => (mapUpdate g.group i (fun st => si.pushS st cmd)).map
      (fun m => { g with group := m })

/-- `UndoGroup::redo`: same delegation shape as `push`. -/
def redo (si : StackI S Cm) (g : UndoGroup S) : Option (UndoGroup S) :=
  match g.active with
  | none => some g
  | some i => (mapUpdate g.group i si.redoS).map (fun m => { g with group := m })

/-- `UndoGroup::undo`: same delegation shape as `push`. -/
def undo (si : StackI S Cm) (g : UndoGroup S) : Option (UndoGroup S) :=
  match g.active with
  | none => some g
  | some i => (mapUpdate g.group i si.undoS).map (fun m => { g with group := m })

end UndoGroup

/-- An interleaving step for claim C7: one `add_stack` or `remove_stack`
call. -/
inductive GOp (S : Type) : Type where
  | add : S → GOp S
  | remove : Nat → GOp S

/-- Run an interleaving of `add_stack`/`remove_stack` calls, collecting the
identifiers handed out by `add_stack` in order; `none` when a removal
panics. -/
def runAR : List (GOp S) → UndoGroup S → Option (UndoGroup S × List Nat)
  | [], g => some (g, [])
  | GOp.add s :: ops, g =>
    let (g', i) := UndoGroup.add_stack g s
    (runAR ops g').map (fun r => (r.1, i :: r.2))
  | GOp.remove i :: ops, g =>
    match UndoGroup.remove_stack g i with
    | none => none
    | some (_, g') => runAR ops g'

/-- A delegated history call for claim C8: `push`, `undo` or `redo` on the
group. -/
inductive HOp (Cm : Type) : Type where
  | push : Cm → HOp Cm
  | undo : HOp Cm
  | redo : HOp Cm

/-- One delegated call. -/
def stepH (si : StackI S Cm) (g : UndoGroup S) : HOp Cm → Option (UndoGroup S)
  | HOp.push c => UndoGroup.push si g c
  | HOp.undo => UndoGroup.undo si g
  | HOp.redo => UndoGroup.redo si g

/-- A sequence of delegated calls, stopping at the first panic. -/
def runH (si : StackI S Cm) : List (HOp Cm) → UndoGroup S → Option (UndoGroup S)
  | [], g => some g
  | op :: ops, g =>
    match stepH si g op with
    | none => none
    | some g' => runH si ops g'

/-! ## Theorems -/

/-- C6: for every Timeline state, `is_saved()` returns true if and only if
`saved == Some(current)`. -/
theorem C6_is_saved_iff (tl : Timeline C) :
    tl.is_saved = true ↔ tl.saved = some tl.current := by
  cases h : tl.saved <;> simp [Timeline.is_saved, h]

/-- C5: with a connected slot, `set_saved(true)` sets `saved = Some(current)`
and `set_saved(false)` sets `saved = None`; a `Saved` signal carrying the new
value of `is_saved()` is emitted exactly when that value changed; `current`
and the entries are untouched. -/
theorem C5_set_saved (tl : Timeline C) (b : Bool) (hc : tl.connected = true) :
    ((tl.set_saved b).1.saved = if b then some tl.current else none) ∧
    (tl.set_saved b).1.current = tl.current ∧
    (tl.set_saved b).1.entries = tl.entries ∧
    ((tl.set_saved b).2 =
      if (tl.set_saved b).1.is_saved = tl.is_saved then []
      else [Signal.saved (tl.set_saved b).1.is_saved]) := by
  cases b <;>
    cases hs : tl.is_saved <;>
      simp_all [Timeline.set_saved, Timeline.is_saved, emitIf, hc]

/-- A connected timeline used as the concrete input of several witnesses:
empty, unsaved. -/
def sampleTl : Timeline Unit :=
  { entries := [], current := 0, saved := none, connected := true }

/-- A connected timeline with both `can_undo` and `can_redo` true and the
saved marker at the cursor. -/
def sampleTl2 : Timeline Unit :=
  { entries := [(), ()], current := 1, saved := some 1, connected := true }

theorem C5_set_saved_witness :
    sampleTl.connected = true ∧
    ((sampleTl.set_saved true).1.saved = if true then some sampleTl.current else none) ∧
    (sampleTl.set_saved true).1.current = sampleTl.current ∧
    (sampleTl.set_saved true).1.entries = sampleTl.entries ∧
    ((sampleTl.set_saved true).2 =
      if (sampleTl.set_saved true).1.is_saved = sampleTl.is_saved then []
      else [Signal.saved (sampleTl.set_saved true).1.is_saved]) :=
  ⟨rfl, C5_set_saved sampleTl true rfl⟩

/-- C4: with a connected slot, `clear()` removes all entries, resets
`current` to 0, turns `saved` into `Some(0)` exactly when the timeline was
saved at the time of the call, and emits the `Undo(false)` (resp.
`Redo(false)`) signal if and only if `can_undo` (resp. `can_redo`) was
previously true. -/
theorem C4_clear (tl : Timeline C) (hc : tl.connected = true) :
    (tl.clear).1.entries = [] ∧ (tl.clear).1.current = 0 ∧
    ((tl.clear).1.saved = if tl.is_saved then some 0 else none) ∧
    (Signal.undo false ∈ (tl.clear).2 ↔ tl.can_undo = true) ∧
    (Signal.redo false ∈ (tl.clear).2 ↔ tl.can_redo = true) := by
  cases hu : tl.can_undo <;> cases hr : tl.can_redo <;>
    simp_all [Timeline.clear, emitIf]

theorem C4_clear_witness :
    sampleTl2.connected = true ∧
    (sampleTl2.clear).1.entries = [] ∧ (sampleTl2.clear).1.current = 0 ∧
    ((sampleTl2.clear).1.saved = if sampleTl2.is_saved then some 0 else none) ∧
    (Signal.undo false ∈ (sampleTl2.clear).2 ↔ sampleTl2.can_undo = true) ∧
    (Signal.redo false ∈ (sampleTl2.clear).2 ↔ sampleTl2.can_redo = true) :=
  ⟨rfl, C4_clear sampleTl2 rfl⟩

/-- C10: `clear()` leaves the value of `is_saved()` unchanged and never
emits a `Saved` signal. -/
theorem C10_clear_preserves_saved (tl : Timeline C) :
    (tl.clear).1.is_saved = tl.is_saved ∧ ∀ b, Signal.saved b ∉ (tl.clear).2 := by
  constructor
  · cases hs : tl.is_saved <;>
      · simp only [Timeline.clear, hs]
        simp [Timeline.is_saved]
  · intro b
    by_cases hc : tl.connected <;>
      cases hu : tl.can_undo <;> cases hr : tl.can_redo <;>
        simp_all [Timeline.clear, emitIf]

/-- C3 (counterexample): the four builder configurations below enumerate the
whole configuration space of `Builder` — its only fields are the
initially-saved flag and the slot connection — and every one of them (as
well as `Timeline::new()`) reports an entry bound of 32: the bound is fixed
by the `ArrayVec<[Entry<C>; 32]>` type, and no `capacity: N` construction
option exists for `limit()` to equal. -/
theorem C3_counterexample :
    ((Builder.new.set_saved true).build Unit).limit = 32 ∧
    ((Builder.new.set_saved false).build Unit).limit = 32 ∧
    ((Builder.new.connect.set_saved true).build Unit).limit = 32 ∧
    ((Builder.new.connect.set_saved false).build Unit).limit = 32 ∧
    (Timeline.new Unit).limit = 32 :=
  ⟨rfl, rfl, rfl, rfl, rfl⟩

/-- C3 (amended): construction recognizes only the initially-saved flag (and
a slot connection); every built timeline starts empty with `current = 0`,
`saved = Some(0)` iff initially-saved, and its entry bound — reported by
`limit()` — is the fixed, not-growable 32 imposed by the backing array
type. -/
theorem C3_builder (C : Type) (b : Builder) :
    (b.build C).limit = 32 ∧ (b.build C).entries = [] ∧
    (b.build C).current = 0 ∧
    ((b.build C).saved = if b.saved then some 0 else none) ∧
    (b.build C).len ≤ (b.build C).limit :=
  ⟨rfl, rfl, rfl, rfl, by simp [Builder.build, Timeline.len, Timeline.limit]⟩

/-- Looking a key up after filtering it out of the modelled map finds
nothing. -/
theorem lookup_filter_ne (m : List (Nat × S)) (i : Nat) :
    List.lookup i (m.filter (fun p => p.1 ≠ i)) = none := by
  induction m with
  | nil => rfl
  | cons p m ih =>
    obtain ⟨k, v⟩ := p
    by_cases hp : k = i
    · rw [List.filter_cons_of_neg (by simp [hp])]
      exact ih
    · rw [List.filter_cons_of_pos (by simp [hp])]
      simp only [List.lookup]
      rw [show (i == k) = false by simp [Ne.symm hp]]
      exact ih

/-- The identifiers handed out along any successful `add_stack`/`remove_stack`
interleaving are the consecutive counter values starting at the initial
counter. -/
theorem runAR_range : ∀ (ops : List (GOp S)) (g g' : UndoGroup S) (issued : List Nat),
    runAR ops g = some (g', issued) → ∃ k, issued = List.range' g.id k := by
  intro ops
  induction ops with
  | nil =>
    intro g g' issued h
    simp only [runAR, Option.some.injEq, Prod.mk.injEq] at h
    exact ⟨0, h.2.symm⟩
  | cons op ops ih =>
    intro g g' issued h
    cases op with
    | add s =>
      simp only [runAR] at h
      cases hr : runAR ops (UndoGroup.add_stack g s).1 with
      | none => rw [hr] at h; simp at h
      | some r =>
        rw [hr] at h
        simp only [Option.map_some', Option.some.injEq, Prod.mk.injEq] at h
        obtain ⟨k, hk⟩ := ih _ r.1 r.2 (by rw [hr])
        refine ⟨k + 1, ?_⟩
        rw [← h.2, hk]
        simp [UndoGroup.add_stack, List.range']
    | remove i =>
      simp only [runAR] at h
      cases hr : UndoGroup.remove_stack g i with
      | none => rw [hr] at h; simp at h
      | some p =>
        obtain ⟨ps, pg⟩ := p
        rw [hr] at h
        have hid : pg.id = g.id := by
          unfold UndoGroup.remove_stack at hr
          cases hm : UndoGroup.mapRemove g.group i with
          | none => rw [hm] at hr; simp at hr
          | some q =>
            obtain ⟨qs, qm⟩ := q
            rw [hm] at hr
            simp only [Option.some.injEq, Prod.mk.injEq] at hr
            rw [← hr.2]
        obtain ⟨k, hk⟩ := ih pg g' issued h
        exact ⟨k, by rw [hk, hid]⟩

/-- C7: along every interleaving of `add_stack` and `remove_stack` calls on
a fresh group, the identifiers returned by `add_stack` are pairwise
distinct — an identifier is never recycled, even after the stack it named
was removed. -/
theorem C7_fresh_identifiers (ops : List (GOp S)) (g' : UndoGroup S)
    (issued : List Nat) (h : runAR ops (UndoGroup.new S) = some (g', issued)) :
    issued.Nodup := by
  obtain ⟨k, hk⟩ := runAR_range ops _ g' issued h
  rw [hk]
  exact List.nodup_range' _ _

theorem C7_fresh_identifiers_witness : ([0, 1, 2] : List Nat).Nodup :=
  C7_fresh_identifiers [GOp.add (), GOp.add (), GOp.remove 0, GOp.add ()]
    { group := [(2, ()), (1, ())], active := none, id := 3 } [0, 1, 2] rfl

/-- A group with no active stack is a fixed point of every delegated
`push`/`undo`/`redo` sequence, and none of those calls fails. -/
theorem runH_fix : ∀ (si : StackI S Cm) (hs : List (HOp Cm)) (g : UndoGroup S),
    g.active = none → runH si hs g = some g := by
  intro si hs
  induction hs with
  | nil => intro g _; rfl
  | cons op ops ih =>
    intro g hg
    cases op <;>
      simp [runH, stepH, UndoGroup.push, UndoGroup.undo, UndoGroup.redo, hg, ih g hg]

/-- C8: removing the active stack returns the timeline stored under its id
and unsets the active slot, and any subsequent sequence of
`push`/`undo`/`redo` calls leaves the group unchanged without failing, as
long as no new stack is set active. -/
theorem C8_remove_active_stack (si : StackI S Cm) (g : UndoGroup S) (i : Nat)
    (s : S) (hs : List (HOp Cm))
    (hact : g.active = some i) (hget : UndoGroup.mapGet g.group i = some s) :
    UndoGroup.remove_stack g i =
      some (s, { group := g.group.filter (fun p => p.1 ≠ i),
                 active := none, id := g.id }) ∧
    UndoGroup.mapGet (g.group.filter (fun p => p.1 ≠ i)) i = none ∧
    runH si hs { group := g.group.filter (fun p => p.1 ≠ i),
                 active := none, id := g.id } =
      some { group := g.group.filter (fun p => p.1 ≠ i),
             active := none, id := g.id } := by
  refine ⟨?_, lookup_filter_ne g.group i, runH_fix si hs _ rfl⟩
  unfold UndoGroup.remove_stack UndoGroup.mapRemove
  unfold UndoGroup.mapGet at hget
  rw [hget, hact]
  simp

/-- The trivial stack interface on a one-point stack type, used as the
concrete instantiation of the abstract `UndoStack` operations in
witnesses. -/
def unitSI : StackI Unit Unit :=
  { pushS := fun s _ => s, undoS := fun s => s, redoS := fun s => s,
    is_cleanS := fun _ => true }

theorem C8_remove_active_stack_witness :
    UndoGroup.remove_stack { group := [(0, ())], active := some 0, id := 1 } 0 =
      some ((), { group := List.filter (fun p => p.1 ≠ 0) [(0, ())],
                  active := none, id := 1 }) ∧
    UndoGroup.mapGet (List.filter (fun p => p.1 ≠ 0) [(0, ())]) 0 = none ∧
    runH unitSI [HOp.push (), HOp.undo, HOp.redo]
        { group := List.filter (fun p => p.1 ≠ 0) [(0, ())],
          active := none, id := 1 } =
      some { group := List.filter (fun p => p.1 ≠ 0) [(0, ())],
             active := none, id := 1 } :=
  C8_remove_active_stack unitSI { group := [(0, ())], active := some 0, id := 1 }
    0 () [HOp.push (), HOp.undo, HOp.redo] rfl rfl

/-- C9: a reachable group state — add a stack (minting id 0), remove it,
then `set_active_stack` with id 0, which stores the id without validating
it — has an active identifier whose stack is gone; in that state `push`,
`undo` and `redo` all panic on the unwrapped map lookup (modelled as
`none`), while `is_clean()` and `is_dirty()` return `None`. -/
theorem C9_dangling_active_panics :
    UndoGroup.remove_stack (((UndoGroup.new Unit).add_stack ()).1) 0 =
      some ((), { group := [], active := none, id := 1 }) ∧
    UndoGroup.push unitSI
      (UndoGroup.set_active_stack { group := [], active := none, id := 1 } 0) () = none ∧
    UndoGroup.undo unitSI
      (UndoGroup.set_active_stack { group := [], active := none, id := 1 } 0) = none ∧
    UndoGroup.redo unitSI
      (UndoGroup.set_active_stack { group := [], active := none, id := 1 } 0) = none ∧
    UndoGroup.is_clean unitSI
      (UndoGroup.set_active_stack { group := [], active := none, id := 1 } 0) = none ∧
    UndoGroup.is_dirty unitSI
      (UndoGroup.set_active_stack { group := [], active := none, id := 1 } 0) = none :=
  ⟨rfl, rfl, rfl, rfl, rfl, rfl⟩

/-- With a never-merging interface, the merge probe inside `apply` always
declines. -/
theorem merge_probe_none (i : Interface C T) (hNM : i.NoMerge)
    (prev : Option C) (c' : C) :
    prev.bind (fun p => i.merge p c') = none := by
  cases prev with
  | none => rfl
  | some a => simpa using hNM a c'

/-- What a successful non-merging `apply` does to the timeline: the redo
tail is truncated, the oldest entry is evicted exactly when the live prefix
already fills the capacity, and the updated operation is appended; the new
cursor sits at the end of the entries. -/
theorem applyM_spec (i : Interface C T) (hNM : i.NoMerge) {tl : Timeline C}
    {t t1 : T} {c : C} {tl1 : Timeline C}
    (hinv : tl.inv) (h : Timeline.applyM i tl t c = some (tl1, t1)) :
    ∃ c', i.run c t = some (c', t1) ∧ tl1.inv ∧
      tl1.connected = tl.connected ∧
      tl1.current = min (tl.current + 1) Timeline.capacity ∧
      tl1.entries.length = tl1.current ∧
      tl1.entries = (tl.entries.take tl.current).drop
          (tl.current + 1 - Timeline.capacity) ++ [c'] := by
  have hcap : Timeline.capacity = 32 := rfl
  have hinv1 := hinv.1
  have hinv2 := hinv.2
  rw [hcap] at hinv2
  have hlen : (tl.entries.take tl.current).length = tl.current := by
    rw [List.length_take]
    exact Nat.min_eq_left hinv.1
  cases hr : i.run c t with
  | none => simp [Timeline.applyM, hr] at h
  | some p =>
    obtain ⟨c', t'⟩ := p
    simp only [Timeline.applyM, hr, merge_probe_none i hNM] at h
    refine ⟨c', ?_⟩
    by_cases hc : Timeline.capacity ≤ (tl.entries.take tl.current).length
    · rw [if_pos hc] at h
      rw [hlen, hcap] at hc
      simp only [Option.some.injEq, Prod.mk.injEq] at h
      obtain ⟨h1, h2⟩ := h
      subst h2
      rw [← h1]
      have hdlen : (List.drop 1 (List.take tl.current tl.entries)).length
          = tl.current - 1 := by rw [List.length_drop, hlen]
      have helen : (List.drop 1 (List.take tl.current tl.entries) ++ [c']).length
          = tl.current := by
        rw [List.length_append, hdlen]
        simp
        omega
      refine ⟨rfl, ⟨?_, ?_⟩, rfl, ?_, ?_, ?_⟩
      · show tl.current - 1 + 1
          ≤ (List.drop 1 (List.take tl.current tl.entries) ++ [c']).length
        rw [helen]
        omega
      · show (List.drop 1 (List.take tl.current tl.entries) ++ [c']).length
          ≤ Timeline.capacity
        rw [helen, hcap]
        omega
      · show tl.current - 1 + 1 = min (tl.current + 1) Timeline.capacity
        rw [hcap]
        omega
      · show (List.drop 1 (List.take tl.current tl.entries) ++ [c']).length
          = tl.current - 1 + 1
        rw [helen]
        omega
      · show List.drop 1 (List.take tl.current tl.entries) ++ [c']
          = (tl.entries.take tl.current).drop (tl.current + 1 - Timeline.capacity) ++ [c']
        have hz : tl.current + 1 - Timeline.capacity = 1 := by rw [hcap]; omega
        rw [hz]
    · rw [if_neg hc] at h
      rw [hlen, hcap] at hc
      push_neg at hc
      simp only [Option.some.injEq, Prod.mk.injEq] at h
      obtain ⟨h1, h2⟩ := h
      subst h2
      rw [← h1]
      have helen : (List.take tl.current tl.entries ++ [c']).length
          = tl.current + 1 := by rw [List.length_append, hlen]; rfl
      refine ⟨rfl, ⟨?_, ?_⟩, rfl, ?_, ?_, ?_⟩
      · show tl.current + 1 ≤ (List.take tl.current tl.entries ++ [c']).length
        rw [helen]
      · show (List.take tl.current tl.entries ++ [c']).length ≤ Timeline.capacity
        rw [helen, hcap]
        omega
      · show tl.current + 1 = min (tl.current + 1) Timeline.capacity
        rw [hcap]
        omega
      · show (List.take tl.current tl.entries ++ [c']).length = tl.current + 1
        exact helen
      · show List.take tl.current tl.entries ++ [c']
          = (tl.entries.take tl.current).drop (tl.current + 1 - Timeline.capacity) ++ [c']
        have hz : tl.current + 1 - Timeline.capacity = 0 := by rw [hcap]; omega
        rw [hz, List.drop_zero]

/-- C2: when `current < len` (a redo tail exists), a successful apply of a
new, non-merged operation truncates the entries to the first `current` ones
(discarding every entry at index ≥ the old `current`) before appending the
new entry, and `can_redo()` is false on the result. -/
theorem C2_apply_discards_redo_tail (i : Interface C T) (hNM : i.NoMerge)
    (tl : Timeline C) (t : T) (c : C) (c' : C) (t' : T)
    (hrun : i.run c t = some (c', t'))
    (hinv : tl.inv) (hredo : tl.current < tl.len) :
    Timeline.applyM i tl t c =
      some ({ entries := tl.entries.take tl.current ++ [c'],
              current := tl.current + 1,
              saved := tl.saved,
              connected := tl.connected }, t') ∧
    Timeline.can_redo { entries := tl.entries.take tl.current ++ [c'],
                        current := tl.current + 1,
                        saved := tl.saved,
                        connected := tl.connected } = false := by
  have hlen : (tl.entries.take tl.current).length = tl.current := by
    rw [List.length_take]
    exact Nat.min_eq_left hinv.1
  have hcur : tl.current < 32 := by
    have h2 : tl.entries.length ≤ 32 := hinv.2
    exact lt_of_lt_of_le hredo h2
  constructor
  · simp only [Timeline.applyM, hrun, merge_probe_none i hNM]
    rw [if_neg (by rw [hlen]; show ¬(32 ≤ tl.current); omega)]
  · simp [Timeline.can_redo, Timeline.len, List.length_append, hlen]

theorem C2_apply_discards_redo_tail_witness :
    AddI.run 'c' ['a'] = some ('c', ['a', 'c']) ∧
    ({ entries := ['a', 'b'], current := 1, saved := none,
       connected := false } : Timeline Char).inv ∧
    (({ entries := ['a', 'b'], current := 1, saved := none,
        connected := false } : Timeline Char).current <
      ({ entries := ['a', 'b'], current := 1, saved := none,
         connected := false } : Timeline Char).len) ∧
    (Timeline.applyM AddI
        { entries := ['a', 'b'], current := 1, saved := none,
          connected := false } ['a'] 'c' =
      some ({ entries := List.take 1 ['a', 'b'] ++ ['c'], current := 1 + 1,
              saved := none, connected := false }, ['a', 'c']) ∧
      Timeline.can_redo { entries := List.take 1 ['a', 'b'] ++ ['c'],
                          current := 1 + 1, saved := none,
                          connected := false } = false) :=
  ⟨rfl, by decide, by decide,
    C2_apply_discards_redo_tail AddI (fun a b => rfl)
      { entries := ['a', 'b'], current := 1, saved := none, connected := false }
      ['a'] 'c' 'c' ['a', 'c'] rfl (by decide) (by decide)⟩

/-- Core round-trip lemma: after a batch of successful applies followed by
the same number of successful undos, the target is restored, and the
timeline's live prefix is the original one with the entries evicted by the
bounded buffer dropped from its front. -/
theorem applyN_undoN_spec (i : Interface C T) (hRT : i.RoundTrip)
    (hNM : i.NoMerge) :
    ∀ (cs : List C) (tl : Timeline C) (t : T) (tl' : Timeline C) (t' : T)
      (tl2 : Timeline C) (t2 : T),
      tl.inv →
      Timeline.applyN i cs tl t = some (tl', t') →
      Timeline.undoN i cs.length tl' t' = some (tl2, t2) →
      t2 = t ∧ tl2.inv ∧
        tl.current + cs.length - Timeline.capacity ≤ tl.current ∧
        tl2.current = tl.current - (tl.current + cs.length - Timeline.capacity) ∧
        tl2.entries.take tl2.current =
          (tl.entries.take tl.current).drop
            (tl.current + cs.length - Timeline.capacity) := by
  have hcap : Timeline.capacity = 32 := rfl
  intro cs
  induction cs with
  | nil =>
    intro tl t tl' t' tl2 t2 hinv ha hu
    simp only [Timeline.applyN, Option.some.injEq, Prod.mk.injEq] at ha
    obtain ⟨ha1, ha2⟩ := ha
    subst ha1 ha2
    simp only [List.length_nil, Timeline.undoN, Option.some.injEq,
      Prod.mk.injEq] at hu
    obtain ⟨hu1, hu2⟩ := hu
    subst hu1 hu2
    have hc0 : tl.current ≤ 32 := le_trans hinv.1 hinv.2
    have hz : tl.current + ([] : List C).length - Timeline.capacity = 0 := by
      rw [hcap]
      simp only [List.length_nil]
      omega
    refine ⟨rfl, hinv, ?_, ?_, ?_⟩
    · rw [hz]
      exact Nat.zero_le _
    · rw [hz]
      exact (Nat.sub_zero _).symm
    · rw [hz, List.drop_zero]
  | cons c cs ih =>
    intro tl t tl' t' tl2 t2 hinv ha hu
    simp only [Timeline.applyN] at ha
    cases hA : Timeline.applyM i tl t c with
    | none => rw [hA] at ha; simp at ha
    | some p =>
      obtain ⟨tl1, t1⟩ := p
      rw [hA] at ha
      have ha' : Timeline.applyN i cs tl1 t1 = some (tl', t') := ha
      simp only [List.length_cons, Timeline.undoN] at hu
      cases hU : Timeline.undoN i cs.length tl' t' with
      | none => rw [hU] at hu; simp at hu
      | some q =>
        obtain ⟨tlm, tm⟩ := q
        rw [hU] at hu
        have hu' : Timeline.undoM i tlm tm = some (tl2, t2) := hu
        obtain ⟨c', hrun, hinv1, hconn1, hcur1, hlen1, hent1⟩ :=
          applyM_spec i hNM hinv hA
        obtain ⟨htm, hinvm, hele, hcurm, hprem⟩ :=
          ih tl1 t1 tl' t' tlm tm hinv1 ha' hU
        rw [hcap] at hcur1 hent1 hele hcurm hprem ⊢
        have hc0 : tl.current ≤ 32 := by
          have := hinv.2
          rw [hcap] at this
          exact le_trans hinv.1 this
        have hm0 : tlm.current ≠ 0 := by
          intro h0
          simp only [Timeline.undoM, if_pos h0] at hu'
          exact Option.noConfusion hu'
        have hSlen :
            ((tl.entries.take tl.current).drop (tl.current + 1 - 32)).length
              = tl1.current - 1 := by
          rw [List.length_drop, List.length_take, Nat.min_eq_left hinv.1]
          omega
        have he1S : tl1.current + cs.length - 32
            ≤ ((tl.entries.take tl.current).drop (tl.current + 1 - 32)).length := by
          rw [hSlen]
          omega
        have htl1full : tl1.entries.take tl1.current = tl1.entries := by
          rw [← hlen1]
          exact List.take_length _
        rw [htl1full, hent1,
          List.drop_append_of_le_length he1S] at hprem
        have hdl :
            (((tl.entries.take tl.current).drop (tl.current + 1 - 32)).drop
              (tl1.current + cs.length - 32)).length = tlm.current - 1 := by
          rw [List.length_drop, hSlen]
          omega
        have hget : tlm.entries[tlm.current - 1]? = some c' := by
          have hlt : tlm.current - 1 < tlm.current := by omega
          calc tlm.entries[tlm.current - 1]?
              = (tlm.entries.take tlm.current)[tlm.current - 1]? :=
                (List.getElem?_take_of_lt hlt).symm
            _ = some c' := by
                rw [hprem, ← hdl]
                exact List.getElem?_concat_length _ _
        obtain ⟨c'', hunrun⟩ := hRT c t c' t1 hrun
        rw [htm] at hu'
        simp only [Timeline.undoM, if_neg hm0, hget, hunrun,
          Option.some.injEq, Prod.mk.injEq] at hu'
        obtain ⟨h1, h2⟩ := hu'
        subst h2
        rw [← h1]
        obtain ⟨hinvm1, hinvm2⟩ := hinvm
        refine ⟨rfl, ⟨?_, ?_⟩, ?_, ?_, ?_⟩
        · show tlm.current - 1
            ≤ (tlm.entries.set (tlm.current - 1) c'').length
          rw [List.length_set]
          omega
        · show (tlm.entries.set (tlm.current - 1) c'').length
            ≤ Timeline.capacity
          rw [List.length_set]
          exact hinvm2
        · show tl.current + (cs.length + 1) - 32 ≤ tl.current
          omega
        · show tlm.current - 1
            = tl.current - (tl.current + (cs.length + 1) - 32)
          omega
        · show (tlm.entries.set (tlm.current - 1) c'').take (tlm.current - 1)
            = (tl.entries.take tl.current).drop (tl.current + (cs.length + 1) - 32)
          have hE : (tl.current + 1 - 32) + (tl1.current + cs.length - 32)
              = tl.current + (cs.length + 1) - 32 := by omega
          calc (tlm.entries.set (tlm.current - 1) c'').take (tlm.current - 1)
              = tlm.entries.take (tlm.current - 1) := by
                rw [List.set_take]
                exact List.set_eq_of_length_le
                  (by rw [List.length_take]; exact Nat.min_le_left _ _)
            _ = (tlm.entries.take tlm.current).take (tlm.current - 1) := by
                rw [List.take_take,
                  Nat.min_eq_left (by omega : tlm.current - 1 ≤ tlm.current)]
            _ = (((tl.entries.take tl.current).drop (tl.current + 1 - 32)).drop
                  (tl1.current + cs.length - 32) ++ [c']).take (tlm.current - 1) := by
                rw [hprem]
            _ = ((tl.entries.take tl.current).drop (tl.current + 1 - 32)).drop
                  (tl1.current + cs.length - 32) := by
                rw [← hdl]
                exact List.take_left _ _
            _ = (tl.entries.take tl.current).drop
                  ((tl.current + 1 - 32) + (tl1.current + cs.length - 32)) :=
                List.drop_drop _ _ _
            _ = (tl.entries.take tl.current).drop
                  (tl.current + (cs.length + 1) - 32) := by rw [hE]

/-- The `Add` action's `undo` reverses its `apply`: popping the character
just pushed restores the original string. -/
theorem addI_roundTrip : AddI.RoundTrip := by
  intro c t c' t' h
  simp only [AddI, Option.some.injEq, Prod.mk.injEq] at h
  obtain ⟨h1, h2⟩ := h
  subst h1 h2
  refine ⟨c, ?_⟩
  show AddI.unrun c (t ++ [c]) = some (c, t)
  simp [AddI, List.getLast?_concat, List.dropLast_concat]

/-- C1: for every operation contract whose undo reverses its apply (the
character-append `Add` action being the prime example) and never merges,
any `n` successful applies followed by `n` successful undos leave the
target bit-for-bit identical to its state before the first apply. -/
theorem C1_apply_undo_restores (i : Interface C T) (hRT : i.RoundTrip)
    (hNM : i.NoMerge) (cs : List C) (tl : Timeline C) (t : T)
    (tl' : Timeline C) (t' : T) (tl2 : Timeline C) (t2 : T)
    (hinv : tl.inv)
    (ha : Timeline.applyN i cs tl t = some (tl', t'))
    (hu : Timeline.undoN i cs.length tl' t' = some (tl2, t2)) :
    t2 = t :=
  (applyN_undoN_spec i hRT hNM cs tl t tl' t' tl2 t2 hinv ha hu).1

theorem C1_apply_undo_restores_witness :
    (Timeline.new Char).inv ∧ ([] : List Char) = [] :=
  ⟨by decide,
    C1_apply_undo_restores AddI addI_roundTrip (fun a b => rfl) ['a', 'b']
      (Timeline.new Char) []
      { entries := ['a', 'b'], current := 2, saved := some 0, connected := false }
      ['a', 'b']
      { entries := ['a', 'b'], current := 0, saved := some 0, connected := false }
      [] (by decide) rfl rfl⟩
